import Mathlib

/-!
A shallow embedding of the `Blockchain` class from `src/blockchain.js` of the
udacity-blockchain-nanodegree repository, together with theorems settling the
specification claims about it.

The `Block` class lives in `block.js`, which is referenced but not part of the
sources; its operations (constructor, hash computation, self-validation, body
decoding) are modelled from the spec (sections 4.1 and 6) as abstract
parameters or explicitly flagged definitions.

JavaScript semantics notes reflected in the embedding:
- methods never mutate fields on the error paths that matter here, so the
  stateful operations are state-passing functions returning the post-state;
- `parseInt` on a missing or non-numeric field yields `NaN`, and every
  comparison against `NaN` is false; we model a `NaN` timestamp as `none`
  and the comparison `elapsed >= 300` as `Option.any`, which is `false`
  on `none`;
- `moment(a).diff(moment(b), 'seconds')` truncates the millisecond
  difference toward zero, which is `Int.tdiv` (T-division).
-/

namespace UdacityBlockchain

/-- The decoded form of a block body.  The repository stores two payload
shapes: the genesis marker object and a star-claim object carrying the
owning wallet address.  `star` is kept opaque as a string. -/
inductive Payload where
  | genesisP (data : String)
  | starP (owner : String) (star : String)
deriving DecidableEq, Repr

/-- The JavaScript access `body.owner`: present on star payloads, `undefined`
on the genesis payload. -/
def Payload.ownerField : Payload → Option String
  | .genesisP _ => none
  | .starP o _ => some o

/-- A block as manipulated by `blockchain.js`: height, commit time,
predecessor hash (absent on genesis), own hash, and the encoded body.
`previousBlockHash := none` models the JavaScript `undefined`. -/
structure Block where
  height : Int
  time : String
  previousBlockHash : Option String
  hash : String
  body : String
deriving DecidableEq, Repr

/-- Modelled from the spec: `block.js` is not among the sources; section 4.1
says `Construct(payload)` yields a Block with height/time/previousBlockHash/
hash unset and body set to the encoded payload.  Unset is modelled as
`0` / `""` / `none` / `""`; height, time and hash are always overwritten by
`_addBlock` before commit, and `previousBlockHash` is overwritten whenever
the new height is positive. -/
def Block.new (body : String) : Block :=
  { height := 0, time := "", previousBlockHash := none, hash := "", body := body }

/-- The ledger state: the `chain` array and the cached `height` field. -/
structure Blockchain where
  chain : List Block
  height : Int
deriving DecidableEq, Repr

/-- The state set up by the constructor before `initializeChain` runs:
`this.chain = []; this.height = -1;`. -/
def emptyState : Blockchain :=
  { chain := [], height := -1 }

section Operations

/- The deterministic content hash, consumed as an opaque external service
(spec section 6): a function of height, time, previousBlockHash and body —
never of the stored hash itself. -/
variable (hashFn : Int → String → Option String → String → String)

/- The opaque payload encoder (spec section 6). -/
variable (encode : Payload → String)

/- The opaque payload decoder (spec section 6); `none` models a
`DecodeError` thrown by `getBData`. -/
variable (decode : String → Option Payload)

/- The signature-verification service `bitcoinMessage.verify(message,
address, signature)` (spec section 6). -/
variable (verify : String → String → String → Bool)

/-- Modelled from the spec: `block.generateNewHash()` of the missing
`block.js`, per section 4.1 `computeHash()`: a deterministic hash over the
block's current height, time, previousBlockHash and body. -/
def Block.generateNewHash (b : Block) : String :=
  hashFn b.height b.time b.previousBlockHash b.body

/-- Modelled from the spec: `block.validate()` of the missing `block.js`,
per section 4.1: recompute the hash over the current fields (excluding the
stored hash) and compare with the stored hash. -/
def Block.validateB (b : Block) : Bool :=
  b.hash == b.generateNewHash hashFn

/-- Modelled from the spec: `block.getBData()` of the missing `block.js`,
per section 4.1 `decodeBody()`: recover the payload from the encoded body;
throwing a `DecodeError` is modelled as `none`. -/
def Block.getBData (b : Block) : Option Payload :=
  decode b.body

/-- `getChainHeight()`: resolves with `this.height`. -/
def getChainHeight (s : Blockchain) : Int :=
  s.height

/-- The loop body of `validateChain()`: for each block in chain order,
push it onto the error log when `block.validate()` is false, and, when
`block.height > 0`, additionally push it when its `previousBlockHash`
differs from `this.chain[block.height - 1].hash`.  Reading `.hash` off a
missing array slot is a thrown `TypeError`, modelled as `Except.error`. -/
def validateChainLoop (chain : List Block) :
    List Block → List Block → Except String (List Block)
  | [], errorLog => .ok errorLog
  | b :: rest, errorLog =>
    let log1 := if b.validateB hashFn then errorLog else errorLog ++ [b]
    if b.height > 0 then
      match chain.get? (b.height - 1).toNat with
      | none => .error ("TypeError")
      | some prev =>
        let log2 := if b.previousBlockHash = some prev.hash then log1 else log1 ++ [b]
        validateChainLoop chain rest log2
    else
      validateChainLoop chain rest log1

/-- `validateChain()`: walks `this.chain` in order collecting invalid
blocks; resolves with the error log, or rejects if the linkage lookup
throws. -/
def validateChain (s : Blockchain) : Except String (List Block) :=
  validateChainLoop hashFn s.chain s.chain []

/-- `_addBlock(block)`: validate the whole chain first and reject when the
error log is non-empty; otherwise stamp height, previousBlockHash (when the
new height is positive), time and hash onto the block, push it and update
the cached height.  Returns the settled promise together with the
post-state. -/
def _addBlock (s : Blockchain) (block : Block) (now : String) :
    Except String Block × Blockchain :=
  match validateChain hashFn s with
  | .error e => (.error e, s)
  | .ok errorLogs =>
    if errorLogs.length > 0 then
      (.error ("Blockchain is not valid"), s)
    else
      let blockHeight := s.height + 1
      let b1 := { block with height := blockHeight }
      if blockHeight > 0 then
        match s.chain.getLast? with
        | none => (.error ("TypeError"), s)
        | some last =>
          let b2 := { b1 with previousBlockHash := some last.hash }
          let b3 := { b2 with time := now }
          let b4 := { b3 with hash := b3.generateNewHash hashFn }
          (.ok b4, { chain := s.chain ++ [b4], height := blockHeight })
      else
        let b3 := { b1 with time := now }
        let b4 := { b3 with hash := b3.generateNewHash hashFn }
        (.ok b4, { chain := s.chain ++ [b4], height := blockHeight })

/-- `initializeChain()`: when the cached height is the sentinel `-1`,
construct a Block with payload `{data: 'Genesis Block'}` and hand it to
`_addBlock`; otherwise do nothing. -/
def initializeChain (s : Blockchain) (now : String) :
    Except String Unit × Blockchain :=
  if s.height = -1 then
    let block := Block.new (encode (.genesisP ("Genesis Block")))
    let r := _addBlock hashFn s block now
    (r.1.map (fun _ => ()), r.2)
  else
    (.ok (), s)

/-- The five-minute freshness window, `FIVE_MINUTES_IN_SECONDS = 300`. -/
def FIVE_MINUTES_IN_SECONDS : Int := 300

/-- `message.split(':')` on the character list of the message: split on
every colon, keeping empty fields, exactly like the JavaScript single
character `String.prototype.split`. -/
def splitOnColon : List Char → List (List Char)
  | [] => [[]]
  | c :: rest =>
    if c = ':' then
      [] :: splitOnColon rest
    else
      match splitOnColon rest with
      | [] => [[c]]
      | f :: fs => (c :: f) :: fs

/-- JavaScript `parseInt` restricted to the decimal forms this protocol can
produce: skip leading whitespace, read an optional sign and then the
leading run of decimal digits; `none` models `NaN` (no digits at all). -/
def jsParseInt (field : List Char) : Option Int :=
  let cs := field.dropWhile (fun c => c.isWhitespace)
  let signed : Int × List Char :=
    match cs with
    | '-' :: t => (-1, t)
    | '+' :: t => (1, t)
    | _ => (1, cs)
  let ds := signed.2.takeWhile (fun c => c.isDigit)
  if ds.isEmpty then
    none
  else
    some (signed.1 * (ds.foldl (fun a c => a * 10 + (c.toNat - 48)) 0 : Nat))

/-- `parseInt(message.split(':')[1])`: a missing second field is
`parseInt(undefined) = NaN`, modelled as `none`. -/
def parseMessageTime (message : String) : Option Int :=
  match (splitOnColon message.toList).get? 1 with
  | none => none
  | some f => jsParseInt f

/-- `moment().diff(moment(messageTime), 'seconds')`: the millisecond
difference truncated toward zero, i.e. `Int.tdiv`. -/
def momentDiffSeconds (nowMs msgMs : Int) : Int :=
  Int.tdiv (nowMs - msgMs) 1000

/-- `submitStar(address, message, signature, star)`: parse the message
timestamp, reject when the elapsed seconds reach the freshness window
(a `NaN` timestamp makes the comparison false, so it falls through),
reject when the signature does not verify, otherwise build the
`{owner, star}` block and hand it to `_addBlock`. -/
def submitStar (s : Blockchain)
    (address message signature star : String) (nowMs : Int) (now : String) :
    Except String Block × Blockchain :=
  let messageTime := parseMessageTime message
  let elapsedTimeInSeconds := messageTime.map (fun t => momentDiffSeconds nowMs t)
  if elapsedTimeInSeconds.any (fun e => decide (FIVE_MINUTES_IN_SECONDS ≤ e)) then
    (.error ("Time elapsed between the message was sent and the current time must be less than 5 minutes"), s)
  else if !(verify message address signature) then
    (.error ("Message is not valid"), s)
  else
    let block := Block.new (encode (.starP address star))
    _addBlock hashFn s block now

/-- `getBlockByHash(hash)`: `this.chain.find(block => block.hash === hash)`,
resolved together with the (untouched) post-state. -/
def getBlockByHash (s : Blockchain) (h : String) :
    Option Block × Blockchain :=
  (s.chain.find? (fun b => b.hash == h), s)

/-- `getBlockByHeight(height)`: `this.chain.find(p => p.height === height)`,
resolved together with the (untouched) post-state. -/
def getBlockByHeight (s : Blockchain) (h : Int) :
    Option Block × Blockchain :=
  (s.chain.find? (fun b => b.height == h), s)

/-- The `forEach` body of `getStarsByWalletAddress`: skip the block at
height 0, skip blocks whose `getBData()` throws, push the decoded body
when its owner equals the address. -/
def starsLoop (address : String) : List Block → List Payload → List Payload
  | [], stars => stars
  | b :: rest, stars =>
    if b.height = 0 then
      starsLoop address rest stars
    else
      match b.getBData decode with
      | none => starsLoop address rest stars
      | some body =>
        if body.ownerField = some address then
          starsLoop address rest (stars ++ [body])
        else
          starsLoop address rest stars

/-- `getStarsByWalletAddress(address)`: scan the chain accumulating decoded
star payloads owned by `address`, resolved together with the (untouched)
post-state. -/
def getStarsByWalletAddress (s : Blockchain) (address : String) :
    List Payload × Blockchain :=
  (starsLoop decode address s.chain [], s)

/-- `validateChain()` in state-passing form: the method only reads the
chain. -/
def validateChainRun (s : Blockchain) :
    Except String (List Block) × Blockchain :=
  (validateChain hashFn s, s)

/-- The states reachable from the constructed ledger: the constructor sets
up `emptyState` and immediately runs `initializeChain`; afterwards any
interleaving of `initializeChain` calls and successful `_addBlock` calls
(with arbitrary input blocks and commit times) may run. -/
inductive Reachable : Blockchain → Prop
  | constructed (now : String) :
      Reachable (initializeChain hashFn encode emptyState now).2
  | step_init (s : Blockchain) (now : String) :
      Reachable s → Reachable (initializeChain hashFn encode s now).2
  | step_add (s : Blockchain) (b b' : Block) (now : String) :
      Reachable s → (_addBlock hashFn s b now).1 = .ok b' →
      Reachable (_addBlock hashFn s b now).2

end Operations

/-! ### Concrete instances of the external services, for witness states -/

/-- A concrete injective stand-in for the external content hash, used to
build concrete ledger states in witnesses and counterexamples. -/
def testHash (h : Int) (t : String) (p : Option String) (b : String) : String :=
  "h" ++ toString h ++ "|" ++ t ++ "|" ++ p.getD "" ++ "|" ++ b

/-- A concrete stand-in for the opaque payload encoder. -/
def testEncode : Payload → String
  | .genesisP d => "G:" ++ d
  | .starP o st => "S:" ++ o ++ ":" ++ st

/-- A concrete stand-in for the opaque payload decoder, inverting
`testEncode` on star bodies of the shape it produces for one-field owners
and stars; everything else fails to decode. -/
def testDecode (s : String) : Option Payload :=
  match splitOnColon s.toList with
  | [g, d] => if g = ['G'] then some (.genesisP (String.mk d)) else none
  | [g, o, st] => if g = ['S'] then some (.starP (String.mk o) (String.mk st)) else none
  | _ => none

/-- The ledger state right after the constructor's `initializeChain` call
has settled, under the concrete test services. -/
def sInit : Blockchain := (initializeChain testHash testEncode emptyState "t0").2

/-- The genesis block of `sInit`. -/
def gBlock : Block :=
  { height := 0, time := "t0", previousBlockHash := none,
    hash := testHash 0 "t0" none (testEncode (.genesisP ("Genesis Block"))),
    body := testEncode (.genesisP ("Genesis Block")) }

/-- A tampered block: its stored hash does not recompute under `testHash`
and its `previousBlockHash` does not match the genesis hash, so it fails
both checks of `validateChain`. -/
def badBlock : Block :=
  { height := 1, time := "t1", previousBlockHash := some ("wrong"),
    hash := "corrupt", body := "b" }

/-- A corrupted two-block ledger state containing `badBlock`. -/
def sBad : Blockchain := { chain := [gBlock, badBlock], height := 1 }

/-! ### The committed-state invariant -/

/-- `HeightsFrom n chain`: the blocks of `chain` carry the consecutive
heights `n, n+1, n+2, ...`. -/
def HeightsFrom : Int → List Block → Prop
  | _, [] => True
  | n, b :: rest => b.height = n ∧ HeightsFrom (n + 1) rest

/-- The invariant maintained by the constructor, `initializeChain` and
successful `_addBlock` calls: the cached height mirrors the array length,
the chain is non-empty, heights enumerate the positions, the genesis block
has no predecessor hash, and every later block links to its predecessor's
stored hash. -/
def WellFormed (s : Blockchain) : Prop :=
  s.height = (s.chain.length : Int) - 1 ∧
  s.chain ≠ [] ∧
  HeightsFrom 0 s.chain ∧
  (∀ b ∈ s.chain.head?, b.previousBlockHash = none) ∧
  List.Chain' (fun a b => b.previousBlockHash = some a.hash) s.chain

lemma heightsFrom_append (b : Block) :
    ∀ (l : List Block) (n : Int), HeightsFrom n l → b.height = n + l.length →
      HeightsFrom n (l ++ [b])
  | [], n, _, hb => ⟨by simpa using hb, trivial⟩
  | a :: t, n, ⟨ha, ht⟩, hb => by
    refine ⟨ha, heightsFrom_append b t (n + 1) ht ?_⟩
    simp only [List.length_cons] at hb
    push_cast at hb ⊢
    omega

lemma heightsFrom_getElem? :
    ∀ (l : List Block) (n : Int) (i : Nat) (bl : Block),
      HeightsFrom n l → l[i]? = some bl → bl.height = n + i
  | [], _, i, _, _, hg => by simp at hg
  | a :: t, n, 0, bl, ⟨ha, _⟩, hg => by
    simp only [List.getElem?_cons_zero, Option.some.injEq] at hg
    subst hg
    simpa using ha
  | a :: t, n, i + 1, bl, ⟨_, ht⟩, hg => by
    simp only [List.getElem?_cons_succ] at hg
    have := heightsFrom_getElem? t (n + 1) i bl ht hg
    push_cast at this ⊢
    omega

lemma heightsFrom_getLast? :
    ∀ (l : List Block) (n : Int) (bl : Block),
      HeightsFrom n l → l.getLast? = some bl → bl.height = n + l.length - 1
  | [], _, _, _, hg => by simp at hg
  | a :: t, n, bl, ⟨ha, ht⟩, hg => by
    cases t with
    | nil =>
      simp only [List.getLast?_singleton, Option.some.injEq] at hg
      subst hg
      simpa using ha
    | cons c r =>
      rw [List.getLast?_cons_cons] at hg
      have := heightsFrom_getLast? (c :: r) (n + 1) bl ht hg
      simp only [List.length_cons] at this ⊢
      push_cast at this ⊢
      omega

lemma chain'_getElem? {R : Block → Block → Prop} :
    ∀ (l : List Block) (i : Nat) (pb bl : Block),
      List.Chain' R l → l[i]? = some pb → l[i + 1]? = some bl → R pb bl
  | [], i, _, _, _, hp, _ => by simp at hp
  | a :: t, 0, pb, bl, hc, hp, hb => by
    simp only [List.getElem?_cons_zero, Option.some.injEq] at hp
    subst hp
    simp only [List.getElem?_cons_succ] at hb
    have hhead : t.head? = some bl := by
      cases t with
      | nil => simp at hb
      | cons c r =>
        simp only [List.getElem?_cons_zero, Option.some.injEq] at hb
        subst hb
        rfl
    exact (List.chain'_cons'.mp hc).1 bl hhead
  | a :: t, i + 1, pb, bl, hc, hp, hb => by
    simp only [List.getElem?_cons_succ] at hp hb
    exact chain'_getElem? t i pb bl (List.chain'_cons'.mp hc).2 hp hb

/-- The block as `_addBlock` finalizes it before pushing: stamped height,
commit time, predecessor hash, and the hash recomputed over those fields
and the body. -/
def committedBlock (hashFn : Int → String → Option String → String → String)
    (block : Block) (newHeight : Int) (prev : Option String) (now : String) : Block :=
  { height := newHeight, time := now, previousBlockHash := prev,
    hash := hashFn newHeight now prev block.body, body := block.body }

/-- `_addBlock` on a valid chain, committing at a positive height: the new
block links to the stored hash of the current last block. -/
lemma _addBlock_ok_pos
    (hashFn : Int → String → Option String → String → String)
    (s : Blockchain) (block : Block) (now : String) (last : Block)
    (hv : validateChain hashFn s = .ok []) (hpos : 0 < s.height + 1)
    (hg : s.chain.getLast? = some last) :
    _addBlock hashFn s block now =
      (.ok (committedBlock hashFn block (s.height + 1) (some last.hash) now),
       { chain := s.chain ++ [committedBlock hashFn block (s.height + 1) (some last.hash) now],
         height := s.height + 1 }) := by
  unfold _addBlock
  rw [hv]
  simp only [List.length_nil, gt_iff_lt, lt_self_iff_false, if_false, hg,
    if_pos hpos, committedBlock]
  rfl

/-- `_addBlock` on a valid chain, committing at height zero: the
`previousBlockHash` field of the input block is left as it was. -/
lemma _addBlock_ok_zero
    (hashFn : Int → String → Option String → String → String)
    (s : Blockchain) (block : Block) (now : String)
    (hv : validateChain hashFn s = .ok []) (hzero : ¬ 0 < s.height + 1) :
    _addBlock hashFn s block now =
      (.ok (committedBlock hashFn block (s.height + 1) block.previousBlockHash now),
       { chain := s.chain ++ [committedBlock hashFn block (s.height + 1) block.previousBlockHash now],
         height := s.height + 1 }) := by
  unfold _addBlock
  rw [hv]
  simp only [List.length_nil, gt_iff_lt, lt_self_iff_false, if_false,
    if_neg hzero, committedBlock]
  rfl

/-- A successful `_addBlock` presupposes an empty error log. -/
lemma _addBlock_ok_validateChain
    (hashFn : Int → String → Option String → String → String)
    (s : Blockchain) (block : Block) (now : String) (b' : Block)
    (h : (_addBlock hashFn s block now).1 = .ok b') :
    validateChain hashFn s = .ok [] := by
  cases hv : validateChain hashFn s with
  | error e =>
    unfold _addBlock at h
    rw [hv] at h
    simp at h
  | ok l =>
    cases l with
    | nil => rfl
    | cons a t =>
      unfold _addBlock at h
      rw [hv] at h
      simp at h

/-- A successful `_addBlock` at a positive new height presupposes a last
block to link to. -/
lemma _addBlock_ok_getLast
    (hashFn : Int → String → Option String → String → String)
    (s : Blockchain) (block : Block) (now : String) (b' : Block)
    (h : (_addBlock hashFn s block now).1 = .ok b')
    (hv : validateChain hashFn s = .ok []) (hpos : 0 < s.height + 1) :
    ∃ last, s.chain.getLast? = some last := by
  cases hg : s.chain.getLast? with
  | none =>
    unfold _addBlock at h
    rw [hv] at h
    simp only [List.length_nil, gt_iff_lt, lt_self_iff_false, if_false,
      if_pos hpos, hg] at h
    simp at h
  | some last => exact ⟨last, rfl⟩

/-- `_addBlock` on a state with a non-empty error log rejects and leaves
the state untouched. -/
lemma _addBlock_invalid_frame
    (hashFn : Int → String → Option String → String → String)
    (s : Blockchain) (block : Block) (now : String)
    (l : List Block) (hv : validateChain hashFn s = .ok l) (hne : l ≠ []) :
    _addBlock hashFn s block now = (.error ("Blockchain is not valid"), s) := by
  unfold _addBlock
  rw [hv]
  cases l with
  | nil => exact absurd rfl hne
  | cons a t => simp

/-- The genesis block committed by `initializeChain` from the empty state,
for a given hash service, encoder and commit time. -/
def gBlockOf (hashFn : Int → String → Option String → String → String)
    (encode : Payload → String) (now : String) : Block :=
  { height := 0, time := now, previousBlockHash := none,
    hash := hashFn 0 now none (encode (.genesisP ("Genesis Block"))),
    body := encode (.genesisP ("Genesis Block")) }

lemma initializeChain_emptyState
    (hashFn : Int → String → Option String → String → String)
    (encode : Payload → String) (now : String) :
    initializeChain hashFn encode emptyState now =
      (.ok (), { chain := [gBlockOf hashFn encode now], height := 0 }) := rfl

/-- `initializeChain` on a well-formed state is a no-op. -/
lemma initializeChain_noop
    (hashFn : Int → String → Option String → String → String)
    (encode : Payload → String) (s : Blockchain) (now : String)
    (hwf : WellFormed s) :
    initializeChain hashFn encode s now = (.ok (), s) := by
  obtain ⟨hh, hne, -, -, -⟩ := hwf
  have hlen : 0 < s.chain.length := List.length_pos.mpr hne
  unfold initializeChain
  rw [if_neg]
  omega

/-- Every reachable ledger state is well-formed. -/
lemma reachable_wellFormed
    (hashFn : Int → String → Option String → String → String)
    (encode : Payload → String) (s : Blockchain)
    (h : Reachable hashFn encode s) : WellFormed s := by
  induction h with
  | constructed now =>
    rw [initializeChain_emptyState]
    refine ⟨by simp, by simp, ⟨rfl, trivial⟩, ?_, List.chain'_singleton _⟩
    intro b hb
    simp only [List.head?, Option.mem_def, Option.some.injEq] at hb
    subst hb
    rfl
  | step_init s now _ ih =>
    rw [initializeChain_noop hashFn encode s now ih]
    exact ih
  | step_add s b b' now _ hok ih =>
    obtain ⟨hh, hne, hhts, hhead, hchain⟩ := ih
    have hlen : 0 < s.chain.length := List.length_pos.mpr hne
    have hv := _addBlock_ok_validateChain hashFn s b now b' hok
    have hpos : 0 < s.height + 1 := by omega
    obtain ⟨last, hlast⟩ := _addBlock_ok_getLast hashFn s b now b' hok hv hpos
    have key := _addBlock_ok_pos hashFn s b now last hv hpos hlast
    rw [key]
    refine ⟨by simp; omega, by simp, ?_, ?_, ?_⟩
    · refine heightsFrom_append _ s.chain 0 hhts ?_
      simp only [committedBlock]
      omega
    · intro x hx
      rw [List.head?_append] at hx
      cases hcons : s.chain with
      | nil => exact absurd hcons hne
      | cons a t =>
        rw [hcons] at hx
        simp only [List.head?, Option.or_some, Option.mem_def, Option.some.injEq] at hx
        subst hx
        apply hhead
        rw [hcons]
        rfl
    · rw [List.chain'_append]
      refine ⟨hchain, List.chain'_singleton _, ?_⟩
      intro x hx y hy
      rw [hlast] at hx
      simp only [Option.mem_def, Option.some.injEq] at hx
      simp only [List.head?, Option.mem_def, Option.some.injEq] at hy
      subst hx
      subst hy
      rfl

/-! ### Helper lemmas for the remaining claims -/

/-- The records `getRecordsByOwner` must return, written as the spec says
them (section 4.2): the decoded payloads of the non-genesis blocks whose
decoded owner equals the address, decode failures skipped, in chain
order. -/
def ownedRecords (decode : String → Option Payload) (address : String)
    (chain : List Block) : List Payload :=
  chain.filterMap (fun b =>
    if b.height = (0 : Int) then none
    else match decode b.body with
      | none => none
      | some body => if body.ownerField = some address then some body else none)

lemma starsLoop_spec (decode : String → Option Payload) (address : String) :
    ∀ (l : List Block) (acc : List Payload),
      starsLoop decode address l acc = acc ++ ownedRecords decode address l
  | [], acc => by simp [starsLoop, ownedRecords]
  | b :: rest, acc => by
    unfold starsLoop ownedRecords
    by_cases h0 : b.height = 0
    · simp only [if_pos h0, List.filterMap_cons]
      exact starsLoop_spec decode address rest acc
    · simp only [if_neg h0, List.filterMap_cons]
      cases hd : decode b.body with
      | none =>
        simp only [Block.getBData, hd]
        exact starsLoop_spec decode address rest acc
      | some body =>
        simp only [Block.getBData, hd]
        by_cases how : body.ownerField = some address
        · simp only [if_pos how]
          rw [starsLoop_spec decode address rest (acc ++ [body])]
          simp [ownedRecords]
        · simp only [if_neg how]
          exact starsLoop_spec decode address rest acc

lemma tdiv1000_ge_300 (d : Int) (h : 300000 ≤ d) : 300 ≤ Int.tdiv d 1000 := by
  rw [Int.tdiv_eq_ediv (by omega) (by omega)]
  omega

lemma tdiv1000_lt_300 (d : Int) (h0 : 0 ≤ d) (h : d < 300000) :
    Int.tdiv d 1000 < 300 := by
  rw [Int.tdiv_eq_ediv h0 (by omega)]
  omega

/-- `submitStar` on a message whose parsed timestamp is at least the
freshness window in the past rejects with the expiry message. -/
lemma submitStar_expired
    (hashFn : Int → String → Option String → String → String)
    (encode : Payload → String) (verify : String → String → String → Bool)
    (s : Blockchain) (address message signature star : String)
    (nowMs t : Int) (now : String)
    (hparse : parseMessageTime message = some t)
    (helapsed : 300000 ≤ nowMs - t) :
    submitStar hashFn encode verify s address message signature star nowMs now =
      (.error ("Time elapsed between the message was sent and the current time must be less than 5 minutes"), s) := by
  have hdiv : FIVE_MINUTES_IN_SECONDS ≤ momentDiffSeconds nowMs t :=
    tdiv1000_ge_300 (nowMs - t) helapsed
  unfold submitStar
  rw [hparse]
  simp [hdiv]

/-- `submitStar` on a fresh message runs signature verification: failure
rejects, success hands the built block to `_addBlock`. -/
lemma submitStar_fresh
    (hashFn : Int → String → Option String → String → String)
    (encode : Payload → String) (verify : String → String → String → Bool)
    (s : Blockchain) (address message signature star : String)
    (nowMs t : Int) (now : String)
    (hparse : parseMessageTime message = some t)
    (h0 : 0 ≤ nowMs - t) (helapsed : nowMs - t < 300000) :
    submitStar hashFn encode verify s address message signature star nowMs now =
      (if verify message address signature then
        _addBlock hashFn s (Block.new (encode (.starP address star))) now
       else
        (.error ("Message is not valid"), s)) := by
  have hdiv : ¬ FIVE_MINUTES_IN_SECONDS ≤ momentDiffSeconds nowMs t := by
    have := tdiv1000_lt_300 (nowMs - t) h0 helapsed
    unfold FIVE_MINUTES_IN_SECONDS momentDiffSeconds
    omega
  unfold submitStar
  rw [hparse]
  cases hverify : verify message address signature with
  | false => simp [hdiv, hverify]
  | true => simp [hdiv, hverify]

/-- `submitStar` on a message without a parseable timestamp: the `NaN`
elapsed-time comparison is false, so the freshness check falls through and
signature verification decides the outcome. -/
lemma submitStar_nan
    (hashFn : Int → String → Option String → String → String)
    (encode : Payload → String) (verify : String → String → String → Bool)
    (s : Blockchain) (address message signature star : String)
    (nowMs : Int) (now : String)
    (hparse : parseMessageTime message = none) :
    submitStar hashFn encode verify s address message signature star nowMs now =
      (if verify message address signature then
        _addBlock hashFn s (Block.new (encode (.starP address star))) now
       else
        (.error ("Message is not valid"), s)) := by
  unfold submitStar
  rw [hparse]
  cases hverify : verify message address signature with
  | false => simp [hverify]
  | true => simp [hverify]

/-- Each step of the `validateChain` loop appends the visited block at most
twice to the log: whatever the loop resolves with extends the incoming log
by a sublist of the chain with every block doubled. -/
lemma validateChainLoop_sublist
    (hashFn : Int → String → Option String → String → String)
    (chain : List Block) :
    ∀ (rest : List Block) (acc l : List Block),
      validateChainLoop hashFn chain rest acc = .ok l →
      ∃ add, l = acc ++ add ∧
        add.Sublist (rest.flatMap (fun b => [b, b]))
  | [], acc, l, h => by
    simp only [validateChainLoop, Except.ok.injEq] at h
    exact ⟨[], by simp [h.symm], by simp⟩
  | b :: rest, acc, l, h => by
    unfold validateChainLoop at h
    by_cases hval : b.validateB hashFn
    · rw [if_pos hval] at h
      by_cases hh : b.height > 0
      · rw [if_pos hh] at h
        split at h
        · exact absurd h (by simp)
        · rename_i prev heq
          by_cases hp : b.previousBlockHash = some prev.hash
          · rw [if_pos hp] at h
            obtain ⟨add, hl, hs⟩ := validateChainLoop_sublist hashFn chain rest acc l h
            refine ⟨add, hl, ?_⟩
            rw [List.flatMap_cons]
            exact hs.trans (List.sublist_append_right _ _)
          · rw [if_neg hp] at h
            obtain ⟨add, hl, hs⟩ := validateChainLoop_sublist hashFn chain rest (acc ++ [b]) l h
            refine ⟨[b] ++ add, by rw [hl, List.append_assoc], ?_⟩
            rw [List.flatMap_cons]
            exact List.Sublist.append (by simp) hs
      · rw [if_neg hh] at h
        obtain ⟨add, hl, hs⟩ := validateChainLoop_sublist hashFn chain rest acc l h
        refine ⟨add, hl, ?_⟩
        rw [List.flatMap_cons]
        exact hs.trans (List.sublist_append_right _ _)
    · rw [if_neg hval] at h
      by_cases hh : b.height > 0
      · rw [if_pos hh] at h
        split at h
        · exact absurd h (by simp)
        · rename_i prev heq
          by_cases hp : b.previousBlockHash = some prev.hash
          · rw [if_pos hp] at h
            obtain ⟨add, hl, hs⟩ := validateChainLoop_sublist hashFn chain rest (acc ++ [b]) l h
            refine ⟨[b] ++ add, by rw [hl, List.append_assoc], ?_⟩
            rw [List.flatMap_cons]
            exact List.Sublist.append (by simp) hs
          · rw [if_neg hp] at h
            obtain ⟨add, hl, hs⟩ :=
              validateChainLoop_sublist hashFn chain rest (acc ++ [b] ++ [b]) l h
            refine ⟨[b, b] ++ add, by rw [hl]; simp, ?_⟩
            rw [List.flatMap_cons]
            exact List.Sublist.append (by simp) hs
      · rw [if_neg hh] at h
        obtain ⟨add, hl, hs⟩ := validateChainLoop_sublist hashFn chain rest (acc ++ [b]) l h
        refine ⟨[b] ++ add, by rw [hl, List.append_assoc], ?_⟩
        rw [List.flatMap_cons]
        exact List.Sublist.append (by simp) hs

/-- The signature service that accepts everything, for counterexamples. -/
def verifyAll : String → String → String → Bool := fun _ _ _ => true

/-- The signature service that rejects everything, for witnesses. -/
def verifyNone : String → String → String → Bool := fun _ _ _ => false

/-! ### The claims -/

/-- Claim C1: whenever `validateChain()` reports a non-empty error list on
the current state, `_addBlock` rejects (with the chain-invalid error) and
the post-state — chain array and cached height — is exactly the pre-state,
so no block is added and no committed block changes. -/
theorem claim_C1
    (hashFn : Int → String → Option String → String → String)
    (s : Blockchain) (block : Block) (now : String) (l : List Block)
    (hv : validateChain hashFn s = .ok l) (hne : l ≠ []) :
    _addBlock hashFn s block now = (.error ("Blockchain is not valid"), s) :=
  _addBlock_invalid_frame hashFn s block now l hv hne

theorem claim_C1_witness :
    validateChain testHash sBad = .ok [badBlock, badBlock] ∧
    ([badBlock, badBlock] : List Block) ≠ [] ∧
    _addBlock testHash sBad gBlock "t9" = (.error ("Blockchain is not valid"), sBad) :=
  ⟨rfl, by simp, claim_C1 testHash sBad gBlock "t9" [badBlock, badBlock] rfl (by simp)⟩

/-- Claim C2: in every committed ledger state reachable by the constructor,
`initializeChain` and successful `_addBlock` calls, `chain[i].height == i`
for every index, the genesis block's `previousBlockHash` is absent, and
every later block's `previousBlockHash` equals its predecessor's hash. -/
theorem claim_C2
    (hashFn : Int → String → Option String → String → String)
    (encode : Payload → String) (s : Blockchain)
    (h : Reachable hashFn encode s) :
    (∀ (i : Nat) (bl : Block), s.chain[i]? = some bl → bl.height = i) ∧
    (∀ b0 : Block, s.chain[0]? = some b0 → b0.previousBlockHash = none) ∧
    (∀ (i : Nat) (pb bl : Block), s.chain[i]? = some pb →
      s.chain[i + 1]? = some bl → bl.previousBlockHash = some pb.hash) := by
  obtain ⟨hh, hne, hhts, hhead, hchain⟩ := reachable_wellFormed hashFn encode s h
  refine ⟨?_, ?_, ?_⟩
  · intro i bl hg
    have := heightsFrom_getElem? s.chain 0 i bl hhts hg
    omega
  · intro b0 hg
    apply hhead
    rw [List.head?_eq_getElem?]
    exact hg
  · intro i pb bl hp hb
    exact chain'_getElem? s.chain i pb bl hchain hp hb

theorem claim_C2_witness :
    Reachable testHash testEncode sInit ∧
    ((∀ (i : Nat) (bl : Block), sInit.chain[i]? = some bl → bl.height = i) ∧
     (∀ b0 : Block, sInit.chain[0]? = some b0 → b0.previousBlockHash = none) ∧
     (∀ (i : Nat) (pb bl : Block), sInit.chain[i]? = some pb →
       sInit.chain[i + 1]? = some bl → bl.previousBlockHash = some pb.hash)) :=
  ⟨Reachable.constructed "t0",
   claim_C2 testHash testEncode sInit (Reachable.constructed "t0")⟩


/-- Claim C3: `submitStar` rejects (appending nothing) whenever the parsed
message timestamp lies 300 seconds or more in the past — in particular
exactly at the 300-second boundary — and, on a valid well-formed chain,
succeeds and appends a block at `height() + 1` when the timestamp is
strictly less than 300 seconds in the past and the signature verifies. -/
theorem claim_C3
    (hashFn : Int → String → Option String → String → String)
    (encode : Payload → String) (verify : String → String → String → Bool)
    (s : Blockchain) (address message signature star : String)
    (nowMs t : Int) (now : String)
    (hparse : parseMessageTime message = some t) :
    (300000 ≤ nowMs - t →
      submitStar hashFn encode verify s address message signature star nowMs now =
        (.error ("Time elapsed between the message was sent and the current time must be less than 5 minutes"), s)) ∧
    (0 ≤ nowMs - t → nowMs - t < 300000 →
      verify message address signature = true →
      validateChain hashFn s = .ok [] →
      s.height = (s.chain.length : Int) - 1 →
      ∃ b', submitStar hashFn encode verify s address message signature star nowMs now =
          (.ok b', { chain := s.chain ++ [b'], height := s.height + 1 }) ∧
        b'.height = getChainHeight s + 1) := by
  constructor
  · intro he
    exact submitStar_expired hashFn encode verify s address message signature star
      nowMs t now hparse he
  · intro h0 h3 hver hv hcache
    rw [submitStar_fresh hashFn encode verify s address message signature star
      nowMs t now hparse h0 h3]
    simp only [hver, if_true]
    by_cases hpos : 0 < s.height + 1
    · have hne : s.chain ≠ [] := by
        intro hc
        rw [hc] at hcache
        simp at hcache
        omega
      obtain ⟨last, hlast⟩ := Option.isSome_iff_exists.mp (List.getLast?_isSome.mpr hne)
      rw [_addBlock_ok_pos hashFn s (Block.new (encode (.starP address star))) now last hv hpos hlast]
      exact ⟨_, rfl, rfl⟩
    · rw [_addBlock_ok_zero hashFn s (Block.new (encode (.starP address star))) now hv hpos]
      exact ⟨_, rfl, rfl⟩

theorem claim_C3_witness :
    parseMessageTime ("addr:1000000:starRegistry") = some 1000000 ∧
    (300000 ≤ (1300000 : Int) - 1000000 ∧
      submitStar testHash testEncode verifyAll sInit "addr" "addr:1000000:starRegistry" "sig" "star" 1300000 "t1" =
        (.error ("Time elapsed between the message was sent and the current time must be less than 5 minutes"), sInit)) ∧
    (0 ≤ (1299999 : Int) - 1000000 ∧ (1299999 : Int) - 1000000 < 300000 ∧
      verifyAll "addr:1000000:starRegistry" "addr" "sig" = true ∧
      validateChain testHash sInit = .ok [] ∧
      sInit.height = (sInit.chain.length : Int) - 1 ∧
      ∃ b', submitStar testHash testEncode verifyAll sInit "addr" "addr:1000000:starRegistry" "sig" "star" 1299999 "t1" =
          (.ok b', { chain := sInit.chain ++ [b'], height := sInit.height + 1 }) ∧
        b'.height = getChainHeight sInit + 1) := by
  refine ⟨rfl, ⟨by decide, ?_⟩, ⟨by decide, by decide, rfl, rfl, by decide, ?_⟩⟩
  · exact (claim_C3 testHash testEncode verifyAll sInit "addr" "addr:1000000:starRegistry"
      "sig" "star" 1300000 1000000 "t1" rfl).1 (by decide)
  · exact (claim_C3 testHash testEncode verifyAll sInit "addr" "addr:1000000:starRegistry"
      "sig" "star" 1299999 1000000 "t1" rfl).2 (by decide) (by decide) rfl rfl (by decide)

/-- Claim C4: `submitStar` on a fresh, parseable message whose signature
fails verification rejects with the invalid-message error and returns the
pre-state unchanged — no chain mutation happens before the append step. -/
theorem claim_C4
    (hashFn : Int → String → Option String → String → String)
    (encode : Payload → String) (verify : String → String → String → Bool)
    (s : Blockchain) (address message signature star : String)
    (nowMs t : Int) (now : String)
    (hparse : parseMessageTime message = some t)
    (h0 : 0 ≤ nowMs - t) (h3 : nowMs - t < 300000)
    (hsig : verify message address signature = false) :
    submitStar hashFn encode verify s address message signature star nowMs now =
      (.error ("Message is not valid"), s) := by
  rw [submitStar_fresh hashFn encode verify s address message signature star
    nowMs t now hparse h0 h3]
  simp [hsig]

theorem claim_C4_witness :
    parseMessageTime ("addr:1000000:starRegistry") = some 1000000 ∧
    0 ≤ (1299999 : Int) - 1000000 ∧ (1299999 : Int) - 1000000 < 300000 ∧
    verifyNone "addr:1000000:starRegistry" "addr" "sig" = false ∧
    submitStar testHash testEncode verifyNone sInit "addr" "addr:1000000:starRegistry" "sig" "star" 1299999 "t1" =
      (.error ("Message is not valid"), sInit) :=
  ⟨rfl, by decide, by decide, rfl,
   claim_C4 testHash testEncode verifyNone sInit "addr" "addr:1000000:starRegistry"
     "sig" "star" 1299999 1000000 "t1" rfl (by decide) (by decide) rfl⟩


/-- Claim C5, counterexample: a message with no parseable timestamp
("hello") is NOT rejected with a malformed-message error before the other
validation steps: with a signature service that accepts, `submitStar`
reaches the append step and commits a block, growing the chain to length
two. -/
theorem claim_C5_counterexample :
    parseMessageTime ("hello") = none ∧
    (submitStar testHash testEncode verifyAll sInit "addr" "hello" "sig" "star" 1300000 "t1").1 =
      .ok (committedBlock testHash (Block.new (testEncode (.starP "addr" "star"))) 1
        (some gBlock.hash) "t1") ∧
    (submitStar testHash testEncode verifyAll sInit "addr" "hello" "sig" "star" 1300000 "t1").2.chain.length = 2 :=
  ⟨rfl, rfl, rfl⟩

/-- Claim C5, amended: `submitStar` has no malformed-message check.  When
the second colon-delimited field of the message fails to parse, the elapsed
time is `NaN`, the freshness comparison is false, and the call proceeds
straight to signature verification: it rejects with the invalid-signature
message when verification fails and otherwise hands the block to
`_addBlock`. -/
theorem claim_C5_amended
    (hashFn : Int → String → Option String → String → String)
    (encode : Payload → String) (verify : String → String → String → Bool)
    (s : Blockchain) (address message signature star : String)
    (nowMs : Int) (now : String)
    (hparse : parseMessageTime message = none) :
    submitStar hashFn encode verify s address message signature star nowMs now =
      (if verify message address signature then
        _addBlock hashFn s (Block.new (encode (.starP address star))) now
       else
        (.error ("Message is not valid"), s)) :=
  submitStar_nan hashFn encode verify s address message signature star nowMs now hparse

theorem claim_C5_amended_witness :
    parseMessageTime ("hello") = none ∧
    submitStar testHash testEncode verifyNone sInit "addr" "hello" "sig" "star" 1300000 "t1" =
      (if verifyNone "hello" "addr" "sig" then
        _addBlock testHash sInit (Block.new (testEncode (.starP "addr" "star"))) "t1"
       else
        (.error ("Message is not valid"), sInit)) :=
  ⟨rfl, claim_C5_amended testHash testEncode verifyNone sInit "addr" "hello" "sig"
    "star" 1300000 "t1" rfl⟩

/-- Claim C6: `getStarsByWalletAddress` returns exactly the decoded
payloads (not the raw blocks) of the non-genesis blocks whose decoded
owner equals the address, in chain order, skipping blocks whose body fails
to decode, and never mutates the state. -/
theorem claim_C6 (decode : String → Option Payload) (s : Blockchain)
    (address : String) :
    getStarsByWalletAddress decode s address =
      (ownedRecords decode address s.chain, s) := by
  unfold getStarsByWalletAddress
  rw [starsLoop_spec decode address s.chain []]
  simp

/-- Claim C7, counterexample: on a state whose second block fails both the
self-hash check and the linkage check, `validateChain` lists that block
twice — the error list does not contain each block at most once. -/
theorem claim_C7_counterexample :
    validateChain testHash sBad = .ok [badBlock, badBlock] ∧
    ¬ List.count badBlock [badBlock, badBlock] ≤ 1 := by
  refine ⟨rfl, ?_⟩
  decide

/-- Claim C7, amended: the error list of `validateChain` is, in order, a
sublist of the chain with every block listed twice: blocks are visited in
ascending chain order and each block is recorded at most once per failed
check — hence at most twice overall, and twice exactly when it fails both
the self-hash check and the linkage check. -/
theorem claim_C7_amended
    (hashFn : Int → String → Option String → String → String)
    (s : Blockchain) (l : List Block)
    (h : validateChain hashFn s = .ok l) :
    l.Sublist (s.chain.flatMap (fun b => [b, b])) := by
  unfold validateChain at h
  obtain ⟨add, hl, hs⟩ := validateChainLoop_sublist hashFn s.chain s.chain [] l h
  rw [hl]
  simpa using hs

theorem claim_C7_amended_witness :
    validateChain testHash sBad = .ok [badBlock, badBlock] ∧
    List.Sublist [badBlock, badBlock] (sBad.chain.flatMap (fun b => [b, b])) :=
  ⟨rfl, claim_C7_amended testHash sBad [badBlock, badBlock] rfl⟩


/-- Claim C8: `getChainHeight` resolves with the chain length minus one:
`-1` on the block-less pre-genesis state, `0` right after initialization,
and on every reachable state it matches both `chain.length - 1` and the
height of the last committed block. -/
theorem claim_C8 :
    getChainHeight emptyState = -1 ∧
    (∀ (hashFn : Int → String → Option String → String → String)
       (encode : Payload → String) (now : String),
      getChainHeight (initializeChain hashFn encode emptyState now).2 = 0) ∧
    (∀ (hashFn : Int → String → Option String → String → String)
       (encode : Payload → String) (s : Blockchain),
      Reachable hashFn encode s →
        getChainHeight s = (s.chain.length : Int) - 1 ∧
        ∀ last, s.chain.getLast? = some last → last.height = getChainHeight s) := by
  refine ⟨rfl, fun hashFn encode now => by rw [initializeChain_emptyState]; rfl, ?_⟩
  intro hashFn encode s h
  obtain ⟨hh, hne, hhts, -, -⟩ := reachable_wellFormed hashFn encode s h
  have hlen : 0 < s.chain.length := List.length_pos.mpr hne
  refine ⟨hh, fun last hg => ?_⟩
  have := heightsFrom_getLast? s.chain 0 last hhts hg
  unfold getChainHeight
  omega

theorem claim_C8_witness :
    Reachable testHash testEncode sInit ∧
    (getChainHeight sInit = (sInit.chain.length : Int) - 1 ∧
      ∀ last, sInit.chain.getLast? = some last → last.height = getChainHeight sInit) :=
  ⟨Reachable.constructed "t0",
   claim_C8.2.2 testHash testEncode sInit (Reachable.constructed "t0")⟩

/-- Claim C9: `initializeChain` is idempotent — when the cached height is
not the sentinel `-1` it is a no-op returning the state unchanged; on the
uninitialized ledger (sentinel height, no blocks) it appends exactly one
genesis block whose body is the encoded fixed sentinel payload
`{data: 'Genesis Block'}`. -/
theorem claim_C9
    (hashFn : Int → String → Option String → String → String)
    (encode : Payload → String) :
    (∀ (s : Blockchain) (now : String), s.height ≠ -1 →
      initializeChain hashFn encode s now = (.ok (), s)) ∧
    (∀ (s : Blockchain) (now : String), s.height = -1 → s.chain = [] →
      (initializeChain hashFn encode s now).2 =
        { chain := [gBlockOf hashFn encode now], height := 0 } ∧
      (gBlockOf hashFn encode now).body = encode (.genesisP ("Genesis Block"))) := by
  constructor
  · intro s now hne
    unfold initializeChain
    rw [if_neg hne]
  · intro s now hh hc
    obtain ⟨c, ht⟩ := s
    simp only at hh hc
    subst hh
    subst hc
    exact ⟨congrArg Prod.snd (initializeChain_emptyState hashFn encode now), rfl⟩

theorem claim_C9_witness :
    (sInit.height ≠ -1 ∧
      initializeChain testHash testEncode sInit "t5" = (.ok (), sInit)) ∧
    (emptyState.height = -1 ∧ emptyState.chain = [] ∧
      (initializeChain testHash testEncode emptyState "t0").2 =
        { chain := [gBlockOf testHash testEncode "t0"], height := 0 } ∧
      (gBlockOf testHash testEncode "t0").body = testEncode (.genesisP ("Genesis Block"))) :=
  ⟨⟨by decide, (claim_C9 testHash testEncode).1 sInit "t5" (by decide)⟩,
   ⟨rfl, rfl, (claim_C9 testHash testEncode).2 emptyState "t0" rfl rfl⟩⟩

/-- Claim C10: the read-only operations — lookup by hash, lookup by height,
the owner scan and the chain validator — never modify the ledger: the
post-state component each returns is exactly the input state. -/
theorem claim_C10
    (hashFn : Int → String → Option String → String → String)
    (decode : String → Option Payload) (s : Blockchain)
    (h : String) (ht : Int) (address : String) :
    (getBlockByHash s h).2 = s ∧
    (getBlockByHeight s ht).2 = s ∧
    (getStarsByWalletAddress decode s address).2 = s ∧
    (validateChainRun hashFn s).2 = s :=
  ⟨rfl, rfl, rfl, rfl⟩

end UdacityBlockchain
